import Mathlib

/-!
Verification of the `traefik_route` interface library
(`src/lib/charms/traefik_route_k8s/v0/traefik_route.py`).

The development shallowly embeds the library:

* JSON values are modelled by the mutual inductive `Json`/`JsonArr`/`JsonObj`
  (numbers are restricted to integers; fraction/exponent literals are outside
  the modelled fragment).
* `_serialize_data` models `json.dumps(data, indent=2)` (two-space
  indentation, `", "`/`": "` item and key separators, ASCII string escaping
  with `\uXXXX` and surrogate pairs, exactly as CPython's encoder emits).
* `loads` models `json.loads` (whitespace skipping, strict string scanning,
  rejection of trailing data); `_deserialize_data` additionally models the
  `TypeError` CPython raises when `json.loads` is applied to `None`, which is
  what happens when the inbound databag field is missing.
* The charm-side state (leadership flag, unit name, the framework's
  endpoint-name-to-relation-list mapping, per-relation application databags)
  is the structure `CharmState`; the requirer operations `relation`,
  `proxied_endpoint` and `relay_ingress_request` are translated line by line,
  with Python exceptions represented by the `PyError` type.  `Json.null`
  models Python's `None` (so a `dict.get` miss and a stored JSON `null` are
  identified, exactly as in Python).
* The provider's `_emit_request_event` handler is modelled as the list of
  events a single invocation emits.

The main auxiliary result is `loads_serialize`, the parse-print round-trip
for the embedded encoder and parser.
-/

mutual
inductive Json where
  | str (s : String)
  | num (n : Int)
  | bool (b : Bool)
  | null
  | arr (elems : JsonArr)
  | obj (members : JsonObj)
  deriving DecidableEq
inductive JsonArr where
  | nil
  | cons (hd : Json) (tl : JsonArr)
  deriving DecidableEq
inductive JsonObj where
  | nil
  | cons (key : String) (val : Json) (tl : JsonObj)
  deriving DecidableEq
end

/-- Two-space-per-level indentation emitted by `json.dumps(..., indent=2)`. -/
def indentChars (n : Nat) : List Char := List.replicate n ' '

/-- Decimal digits of a natural number, most significant first. -/
def natChars (n : Nat) : List Char :=
  if n = 0 then ['0'] else ((Nat.digits 10 n).map Nat.digitChar).reverse

/-- Decimal rendering of a Python `int` (sign followed by digits). -/
def intChars : Int → List Char
  | .ofNat n => natChars n
  | .negSucc m => '-' :: natChars (m + 1)

/-- One `\uXXXX` escape (lowercase hex, as CPython emits). -/
def uEscape16 (n : Nat) : List Char :=
  ['\\', 'u', Nat.digitChar (n / 4096 % 16), Nat.digitChar (n / 256 % 16),
   Nat.digitChar (n / 16 % 16), Nat.digitChar (n % 16)]

/-- Unicode escape for a character outside the printable ASCII range:
a single `\uXXXX` for the basic plane, a surrogate pair beyond it. -/
def uEscape (c : Char) : List Char :=
  if c.toNat < 0x10000 then uEscape16 c.toNat
  else
    uEscape16 (0xD800 + (c.toNat - 0x10000) / 0x400) ++
      uEscape16 (0xDC00 + (c.toNat - 0x10000) % 0x400)

/-- CPython's `ensure_ascii` string-escaping: quote and backslash are
backslash-escaped, printable ASCII is copied, the five short control escapes
are used where they exist, everything else becomes `\uXXXX`. -/
def escapeChar (c : Char) : List Char :=
  if c = '"' then ['\\', '"']
  else if c = '\\' then ['\\', '\\']
  else if 32 ≤ c.toNat ∧ c.toNat ≤ 126 then [c]
  else if c = '\x08' then ['\\', 'b']
  else if c = '\t' then ['\\', 't']
  else if c = '\n' then ['\\', 'n']
  else if c = '\x0c' then ['\\', 'f']
  else if c = '\r' then ['\\', 'r']
  else uEscape c

def escapeStr : List Char → List Char
  | [] => []
  | c :: rest => escapeChar c ++ escapeStr rest

/-- JSON string literal: escaped content between double quotes. -/
def quoteStr (s : String) : List Char := '"' :: escapeStr s.data ++ ['"']

mutual
/-- Model of CPython's `json.dumps(v, indent=2)` at nesting level `lvl`:
containers open with a newline, indent each item by `2*(lvl+1)` spaces,
separate items with `",\n"` and keys from values with `": "`, and close on a
fresh line indented by `2*lvl` spaces; empty containers print as `{}`/`[]`. -/
def printVal : Nat → Json → List Char
  | _, .str s => quoteStr s
  | _, .num n => intChars n
  | _, .bool true => ['t', 'r', 'u', 'e']
  | _, .bool false => ['f', 'a', 'l', 's', 'e']
  | _, .null => ['n', 'u', 'l', 'l']
  | lvl, .arr es =>
    match es with
    | .nil => ['[', ']']
    | .cons _ _ => '[' :: '\n' :: printElems lvl es ++ '\n' :: indentChars (2 * lvl) ++ [']']
  | lvl, .obj ms =>
    match ms with
    | .nil => ['{', '}']
    | .cons _ _ _ => '{' :: '\n' :: printMembers lvl ms ++ '\n' :: indentChars (2 * lvl) ++ ['}']
termination_by structural _ v => v
def printElems : Nat → JsonArr → List Char
  | _, .nil => []
  | lvl, .cons x tl =>
    indentChars (2 * (lvl + 1)) ++ printVal (lvl + 1) x ++
      (match tl with | .nil => [] | .cons _ _ => [',', '\n']) ++ printElems lvl tl
termination_by structural _ es => es
def printMembers : Nat → JsonObj → List Char
  | _, .nil => []
  | lvl, .cons k v tl =>
    indentChars (2 * (lvl + 1)) ++ quoteStr k ++ ':' :: ' ' :: printVal (lvl + 1) v ++
      (match tl with | .nil => [] | .cons _ _ _ => [',', '\n']) ++ printMembers lvl tl
termination_by structural _ ms => ms
end

/-- Model of `_serialize_data(data)`, i.e. `json.dumps(data, indent=2)`. -/
def _serialize_data (v : Json) : String := ⟨printVal 0 v⟩

/-- JSON whitespace accepted between tokens by `json.loads`. -/
def isWs (c : Char) : Bool := c = ' ' || c = '\t' || c = '\n' || c = '\r'

def isDigitCh (c : Char) : Bool := 48 ≤ c.toNat && c.toNat ≤ 57

def skipWs : List Char → List Char
  | [] => []
  | c :: cs => if isWs c then skipWs cs else c :: cs

def hexVal (c : Char) : Option Nat :=
  if 48 ≤ c.toNat ∧ c.toNat ≤ 57 then some (c.toNat - 48)
  else if 97 ≤ c.toNat ∧ c.toNat ≤ 102 then some (c.toNat - 87)
  else if 65 ≤ c.toNat ∧ c.toNat ≤ 70 then some (c.toNat - 55)
  else none

def hex4 (a b c d : Char) : Option Nat :=
  match hexVal a, hexVal b, hexVal c, hexVal d with
  | some x, some y, some z, some w => some (x * 4096 + y * 256 + z * 16 + w)
  | _, _, _, _ => none

/-- The single-character escapes `json.loads` accepts after a backslash. -/
def unescapeChar (c : Char) : Option Char :=
  if c = '"' then some '"'
  else if c = '\\' then some '\\'
  else if c = '/' then some '/'
  else if c = 'b' then some '\x08'
  else if c = 't' then some '\t'
  else if c = 'n' then some '\n'
  else if c = 'f' then some '\x0c'
  else if c = 'r' then some '\r'
  else none

/-- Four hex digits split off the front of the input. -/
def splitU : List Char → Option (Nat × List Char)
  | h1 :: h2 :: h3 :: h4 :: cs =>
    match hex4 h1 h2 h3 h4 with
    | some n => some (n, cs)
    | none => none
  | _ => none

/-- A `\uXXXX` sequence split off the front of the input. -/
def splitBU : List Char → Option (Nat × List Char)
  | b1 :: b2 :: cs => if b1 = '\\' ∧ b2 = 'u' then splitU cs else none
  | _ => none

/-- String scanner of `json.loads` (strict mode), applied after the opening
quote: unescaped control characters are rejected, `\uXXXX` escapes are
decoded, surrogate pairs are combined (an unpaired surrogate is rejected,
which is where the model is stricter than CPython — such strings cannot be
represented by `Char` anyway).  The fuel only bounds recursion depth; every
call site supplies more than the input length. -/
def parseStringBody : Nat → List Char → Option (List Char × List Char)
  | 0, _ => none
  | fuel + 1, cs =>
    match cs with
    | [] => none
    | c :: cs1 =>
      if c = '"' then some ([], cs1)
      else if c = '\\' then
        match cs1 with
        | [] => none
        | e :: cs2 =>
          if e = 'u' then
            match splitU cs2 with
            | none => none
            | some (n, cs3) =>
              if 0xD800 ≤ n ∧ n ≤ 0xDBFF then
                match splitBU cs3 with
                | none => none
                | some (m, cs4) =>
                  if 0xDC00 ≤ m ∧ m ≤ 0xDFFF then
                    match parseStringBody fuel cs4 with
                    | some (out, rest) =>
                      some (Char.ofNat (0x10000 + (n - 0xD800) * 0x400 + (m - 0xDC00)) :: out, rest)
                    | none => none
                  else none
              else if 0xDC00 ≤ n ∧ n ≤ 0xDFFF then none
              else
                match parseStringBody fuel cs3 with
                | some (out, rest) => some (Char.ofNat n :: out, rest)
                | none => none
          else
            match unescapeChar e with
            | none => none
            | some d =>
              match parseStringBody fuel cs2 with
              | some (out, rest) => some (d :: out, rest)
              | none => none
      else if c.toNat < 32 then none
      else
        match parseStringBody fuel cs1 with
        | some (out, rest) => some (c :: out, rest)
        | none => none

def takeDigits : List Char → List Char × List Char
  | [] => ([], [])
  | c :: cs =>
    if isDigitCh c then
      let (ds, r) := takeDigits cs
      (c :: ds, r)
    else ([], c :: cs)

def digitsVal (ds : List Char) : Nat := ds.foldl (fun a c => a * 10 + (c.toNat - 48)) 0

/-- JSON rejects numbers with a redundant leading zero. -/
def leadZero : List Char → Bool
  | c :: _ :: _ => c == '0'
  | _ => false

/-- A following `.`/`e`/`E` would start a float literal, which is outside the
integer fragment modelled here. -/
def floatNext : List Char → Bool
  | c :: _ => c = '.' || c = 'e' || c = 'E'
  | [] => false

def parseNumAfter (neg : Bool) (cs : List Char) : Option (Json × List Char) :=
  match takeDigits cs with
  | (ds, r) =>
    if ds = [] then none
    else if leadZero ds then none
    else if floatNext r then none
    else some (.num (if neg then -(digitsVal ds : Int) else (digitsVal ds : Int)), r)

mutual
/-- Recursive-descent model of `json.loads`'s value scanner.  The fuel
argument only bounds recursion depth; `loads` supplies enough for any input. -/
def parseVal : Nat → List Char → Option (Json × List Char)
  | 0, _ => none
  | fuel + 1, cs =>
    match skipWs cs with
    | [] => none
    | c :: cs1 =>
      if c = '{' then
        match skipWs cs1 with
        | '}' :: cs2 => some (.obj .nil, cs2)
        | cs2 =>
          match parseMembers fuel cs2 with
          | some (ms, r) => some (.obj ms, r)
          | none => none
      else if c = '[' then
        match skipWs cs1 with
        | ']' :: cs2 => some (.arr .nil, cs2)
        | cs2 =>
          match parseElems fuel cs2 with
          | some (es, r) => some (.arr es, r)
          | none => none
      else if c = '"' then
        match parseStringBody (cs1.length + 1) cs1 with
        | some (out, rest) => some (.str ⟨out⟩, rest)
        | none => none
      else if c = 't' then
        match cs1 with
        | 'r' :: 'u' :: 'e' :: r => some (.bool true, r)
        | _ => none
      else if c = 'f' then
        match cs1 with
        | 'a' :: 'l' :: 's' :: 'e' :: r => some (.bool false, r)
        | _ => none
      else if c = 'n' then
        match cs1 with
        | 'u' :: 'l' :: 'l' :: r => some (.null, r)
        | _ => none
      else if c = '-' then parseNumAfter true cs1
      else if isDigitCh c then parseNumAfter false (c :: cs1)
      else none
def parseElems : Nat → List Char → Option (JsonArr × List Char)
  | 0, _ => none
  | fuel + 1, cs =>
    match parseVal fuel cs with
    | none => none
    | some (v, cs2) =>
      match skipWs cs2 with
      | ']' :: cs3 => some (.cons v .nil, cs3)
      | ',' :: cs3 =>
        match parseElems fuel cs3 with
        | none => none
        | some (es, r) => some (.cons v es, r)
      | _ => none
def parseMembers : Nat → List Char → Option (JsonObj × List Char)
  | 0, _ => none
  | fuel + 1, cs =>
    match cs with
    | '"' :: cs1 =>
      match parseStringBody (cs1.length + 1) cs1 with
      | none => none
      | some (k, cs2) =>
        match skipWs cs2 with
        | ':' :: cs3 =>
          match parseVal fuel cs3 with
          | none => none
          | some (v, cs4) =>
            match skipWs cs4 with
            | '}' :: cs5 => some (.cons ⟨k⟩ v .nil, cs5)
            | ',' :: cs5 =>
              match parseMembers fuel (skipWs cs5) with
              | none => none
              | some (ms, r) => some (.cons ⟨k⟩ v ms, r)
            | _ => none
        | _ => none
    | _ => none
end

/-- Model of `json.loads` applied to a string: parse one value, then require
that only whitespace remains. -/
def loads (s : String) : Option Json :=
  match parseVal (s.data.length + 1) s.data with
  | some (v, rest) => if skipWs rest = [] then some v else none
  | none => none

/-- Python exceptions that can escape the library's operations. -/
inductive PyError where
  /-- Models `UnauthorizedError`, raised by `relay_ingress_request` on non-leaders. -/
  | unauthorized
  /-- Models `TraefikNotReadyError`, declared by the library but never raised. -/
  | notReady
  /-- Models `TypeError`, raised by `json.loads(None)` when the databag field is
  missing. -/
  | typeError
  /-- Models `json.JSONDecodeError`, raised on malformed JSON text. -/
  | jsonDecodeError
  /-- Models `AttributeError`, raised by attribute access on `None` (for example
  `self.relation.data` when no relation exists). -/
  | attributeError
  deriving DecidableEq

/-- Model of `_deserialize_data(data)`, i.e. `json.loads(data)`, applied to
the result of a databag `.get` (hence to `None` when the field is absent). -/
def _deserialize_data (raw : Option String) : Except PyError Json :=
  match raw with
  | none => .error .typeError
  | some s =>
    match loads s with
    | some v => .ok v
    | none => .error .jsonDecodeError

/-- One side's relation databag: string keys to string values, in insertion
order, as in an ops `RelationDataContent`. -/
abbrev Databag := List (String × String)

def dbGet : Databag → String → Option String
  | [], _ => none
  | (k', v') :: rest, k => if k' = k then some v' else dbGet rest k

/-- Python `dict`-style assignment: overwrite in place, else append. -/
def dbSet : Databag → String → String → Databag
  | [], k, v => [(k, v)]
  | (k', v') :: rest, k, v =>
    if k' = k then (k, v) :: rest else (k', v') :: dbSet rest k v

/-- One relation on the endpoint: `localAppData` is
`relation.data[self._charm.app]` (written by `relay_ingress_request`),
`remoteAppData` is `relation.data[relation.app]` (written by the traefik
charm and read by `proxied_endpoint`). -/
structure TRRelation where
  localAppData : Databag
  remoteAppData : Databag
  deriving DecidableEq

/-- The slice of charm state the library touches: the leadership flag
(`unit.is_leader()`), the unit name (`unit.name`), and the framework's
mapping from endpoint name to the list of established relations
(`model.relations`). -/
structure CharmState where
  isLeader : Bool
  unitName : String
  modelRelations : List (String × List TRRelation)
  deriving DecidableEq

/-- Model of `model.relations.get(endpoint)`. -/
def relGet : List (String × List TRRelation) → String → Option (List TRRelation)
  | [], _ => none
  | (k, rels) :: rest, ep => if k = ep then some rels else relGet rest ep

/-- Replacement of the first relation bound to `ep` (mutating the relation
object `relay_ingress_request` writes through). -/
def relSetFirst : List (String × List TRRelation) → String → TRRelation →
    List (String × List TRRelation)
  | [], _, _ => []
  | (k, rels) :: rest, ep, r =>
    if k = ep then
      (k, match rels with | [] => [] | _ :: tl => r :: tl) :: rest
    else (k, rels) :: relSetFirst rest ep r

/-- The requirer object: its only state is the configured endpoint name. -/
structure TraefikRouteRequirer where
  endpoint : String
  deriving DecidableEq

/-- Model of the `relation` property: look the endpoint up in
`model.relations`; if the list is missing or empty fall through to `None`,
otherwise return its first element. -/
def TraefikRouteRequirer.relation (req : TraefikRouteRequirer) (s : CharmState) :
    Option TRRelation :=
  match relGet s.modelRelations req.endpoint with
  | some (r :: _) => some r
  | _ => none

/-- Lookup in a parsed JSON object with Python `dict` semantics: a duplicated
key keeps its last occurrence. -/
def JsonObj.lookupLast : JsonObj → String → Option Json
  | .nil, _ => none
  | .cons k v tl, key =>
    match tl.lookupLast key with
    | some r => some r
    | none => if k = key then some v else none

/-- Model of the `proxied_endpoint` property:
`_deserialize_data(self.relation.data[self.relation.app].get('traefik_route'))`
followed by `data.get(unit.name, {}).get('url')`.  A missing relation makes
the `.data` access raise `AttributeError`; a non-`dict` value makes `.get`
raise `AttributeError`; `Json.null` is Python's `None` result. -/
def TraefikRouteRequirer.proxied_endpoint (req : TraefikRouteRequirer)
    (s : CharmState) : Except PyError Json :=
  match req.relation s with
  | none => .error .attributeError
  | some rel =>
    match _deserialize_data (dbGet rel.remoteAppData "traefik_route") with
    | .error e => .error e
    | .ok data =>
      match data with
      | .obj kvs =>
        match (kvs.lookupLast s.unitName).getD (.obj .nil) with
        | .obj kvs2 => .ok ((kvs2.lookupLast "url").getD .null)
        | _ => .error .attributeError
      | _ => .error .attributeError

/-- Model of `relay_ingress_request(ingress, config)`.  The returned pair is
the charm state after the call together with the exception that escaped (if
any); an exception raised mid-way leaves the side effects performed so far in
place, exactly as in Python. -/
def TraefikRouteRequirer.relay_ingress_request (req : TraefikRouteRequirer)
    (s : CharmState) (ingress config : Json) : CharmState × Option PyError :=
  if !s.isLeader then (s, some .unauthorized)
  else
    match req.relation s with
    | none => (s, some .attributeError)
    | some rel =>
      let db := dbSet (dbSet rel.localAppData "config" (_serialize_data config))
        "ingress" (_serialize_data ingress)
      ({ s with modelRelations :=
          relSetFirst s.modelRelations req.endpoint { rel with localAppData := db } },
       none)

/-- The host framework's `ready` relation event, carrying the identity of the
relation it concerns. -/
structure ReadyEvent where
  relation : Nat
  deriving DecidableEq

/-- The provider's domain-specific `request` event. -/
structure TraefikRouteRequestEvent where
  relation : Nat
  deriving DecidableEq

/-- Model of `TraefikRouteProvider._emit_request_event`: the list of `request`
events one invocation of the handler emits
(`self.on.request.emit(event.relation)`). -/
def TraefikRouteProvider._emit_request_event (event : ReadyEvent) :
    List TraefikRouteRequestEvent :=
  [{ relation := event.relation }]

mutual
/-- Fuel sufficient for `parseVal` to scan the printed form of a value. -/
def needV : Json → Nat
  | .arr es =>
    match es with
    | .nil => 1
    | .cons _ _ => 1 + needE es
  | .obj ms =>
    match ms with
    | .nil => 1
    | .cons _ _ _ => 1 + needM ms
  | _ => 1
termination_by structural v => v
def needE : JsonArr → Nat
  | .nil => 1
  | .cons x tl => 1 + needV x + needE tl
termination_by structural es => es
def needM : JsonObj → Nat
  | .nil => 1
  | .cons _ v tl => 1 + needV v + needM tl
termination_by structural ms => ms
end

/-- A list that cannot extend a preceding number literal: it is empty or
starts with something other than a digit, `.`, `e`, `E`. -/
def numDelim : List Char → Prop
  | [] => True
  | c :: _ => isDigitCh c = false ∧ c ≠ '.' ∧ c ≠ 'e' ∧ c ≠ 'E'

/-- The list of relations currently established on the requirer's endpoint
(empty when the endpoint is unknown to the model, as `.get` returns `None`). -/
def relationsOn (req : TraefikRouteRequirer) (s : CharmState) : List TRRelation :=
  (relGet s.modelRelations req.endpoint).getD []

example : loads "" = none := rfl
example : loads "\x7b\x7d" = some (.obj .nil) := rfl
example : loads "not json" = none := rfl
example :
    _serialize_data (.obj (.cons "a" (.str "b") (.cons "c" Json.null .nil))) =
      "\x7b\n  \"a\": \"b\",\n  \"c\": null\n\x7d" := rfl
example :
    loads (_serialize_data (.obj (.cons "a" (.str "b\\x" ) (.cons "c" (.arr (.cons (.bool true) .nil)) .nil)))) =
      some (.obj (.cons "a" (.str "b\\x") (.cons "c" (.arr (.cons (.bool true) .nil)) .nil))) := rfl

theorem hexVal_digitChar {d : Nat} (h : d < 16) : hexVal (Nat.digitChar d) = some d := by
  interval_cases d <;> rfl

theorem hex4_digits {n : Nat} (h : n < 65536) :
    hex4 (Nat.digitChar (n / 4096 % 16)) (Nat.digitChar (n / 256 % 16))
      (Nat.digitChar (n / 16 % 16)) (Nat.digitChar (n % 16)) = some n := by
  have e1 := hexVal_digitChar (d := n / 4096 % 16) (Nat.mod_lt _ (by norm_num))
  have e2 := hexVal_digitChar (d := n / 256 % 16) (Nat.mod_lt _ (by norm_num))
  have e3 := hexVal_digitChar (d := n / 16 % 16) (Nat.mod_lt _ (by norm_num))
  have e4 := hexVal_digitChar (d := n % 16) (Nat.mod_lt _ (by norm_num))
  simp only [hex4, e1, e2, e3, e4]
  exact congrArg some (by omega)

theorem char_valid_nat (c : Char) :
    c.toNat < 0xd800 ∨ (0xdfff < c.toNat ∧ c.toNat < 0x110000) := by
  have h := c.valid
  simpa [UInt32.isValidChar, Nat.isValidChar] using h


theorem psb_onechar (f : Nat) (c : Char) (tail out rest : List Char)
    (h1 : ¬ c = '"') (h2 : ¬ c = '\\') (h3 : ¬ c.toNat < 32)
    (htail : parseStringBody f tail = some (out, rest)) :
    parseStringBody (f + 1) (c :: tail) = some (c :: out, rest) := by
  simp only [parseStringBody, if_neg h1, if_neg h2, if_neg h3, htail]

theorem psb_escang (f : Nat) (e d : Char) (tail out rest : List Char)
    (he : ¬ e = 'u') (hd : unescapeChar e = some d)
    (htail : parseStringBody f tail = some (out, rest)) :
    parseStringBody (f + 1) ('\\' :: e :: tail) = some (d :: out, rest) := by
  simp only [parseStringBody, if_neg (by decide : ¬ ('\\' : Char) = '"'), if_pos rfl,
    if_neg he, hd, htail, if_true]

theorem psb_usingle (f : Nat) (d1 d2 d3 d4 : Char) (n : Nat) (tail out rest : List Char)
    (hx : hex4 d1 d2 d3 d4 = some n)
    (hns : ¬ (0xD800 ≤ n ∧ n ≤ 0xDBFF)) (hns2 : ¬ (0xDC00 ≤ n ∧ n ≤ 0xDFFF))
    (htail : parseStringBody f tail = some (out, rest)) :
    parseStringBody (f + 1) ('\\' :: 'u' :: d1 :: d2 :: d3 :: d4 :: tail) =
      some (Char.ofNat n :: out, rest) := by
  simp only [parseStringBody, if_neg (by decide : ¬ ('\\' : Char) = '"'), if_pos rfl,
    if_pos rfl, splitU, hx, if_neg hns, if_neg hns2, htail, if_true]

theorem psb_usurr (f : Nat) (d1 d2 d3 d4 g1 g2 g3 g4 : Char) (n m : Nat)
    (tail out rest : List Char)
    (hx : hex4 d1 d2 d3 d4 = some n) (hn : 0xD800 ≤ n ∧ n ≤ 0xDBFF)
    (hy : hex4 g1 g2 g3 g4 = some m) (hm : 0xDC00 ≤ m ∧ m ≤ 0xDFFF)
    (htail : parseStringBody f tail = some (out, rest)) :
    parseStringBody (f + 1)
        ('\\' :: 'u' :: d1 :: d2 :: d3 :: d4 :: '\\' :: 'u' :: g1 :: g2 :: g3 :: g4 :: tail) =
      some (Char.ofNat (0x10000 + (n - 0xD800) * 0x400 + (m - 0xDC00)) :: out, rest) := by
  simp only [parseStringBody, if_neg (by decide : ¬ ('\\' : Char) = '"'), if_pos rfl,
    if_pos rfl, splitU, hx, if_pos hn, splitBU, and_self, hy, if_pos hm, htail, if_true]

theorem escapeStr_cons (c : Char) (cs : List Char) :
    escapeStr (c :: cs) = escapeChar c ++ escapeStr cs := rfl

theorem psbe_char (c : Char) (cs : List Char) (f : Nat) (rest : List Char)
    (ihf : parseStringBody f (escapeStr cs ++ '"' :: rest) = some (cs, rest)) :
    parseStringBody (f + 1) (escapeStr (c :: cs) ++ '"' :: rest) = some (c :: cs, rest) := by
  rw [escapeStr_cons, List.append_assoc]
  by_cases h1 : c = '"'
  · subst h1
    exact psb_escang f '"' '"' _ cs rest (by decide) rfl ihf
  by_cases h2 : c = '\\'
  · subst h2
    exact psb_escang f '\\' '\\' _ cs rest (by decide) rfl ihf
  by_cases h3 : 32 ≤ c.toNat ∧ c.toNat ≤ 126
  · have hesc : escapeChar c = [c] := by simp [escapeChar, h1, h2, h3]
    rw [hesc]
    exact psb_onechar f c _ cs rest h1 h2 (by omega) ihf
  by_cases h4 : c = '\x08'
  · subst h4
    exact psb_escang f 'b' '\x08' _ cs rest (by decide) rfl ihf
  by_cases h5 : c = '\t'
  · subst h5
    exact psb_escang f 't' '\t' _ cs rest (by decide) rfl ihf
  by_cases h6 : c = '\n'
  · subst h6
    exact psb_escang f 'n' '\n' _ cs rest (by decide) rfl ihf
  by_cases h7 : c = '\x0c'
  · subst h7
    exact psb_escang f 'f' '\x0c' _ cs rest (by decide) rfl ihf
  by_cases h8 : c = '\r'
  · subst h8
    exact psb_escang f 'r' '\r' _ cs rest (by decide) rfl ihf
  have hesc : escapeChar c = uEscape c := by
    simp [escapeChar, h1, h2, h3, h4, h5, h6, h7, h8]
  rw [hesc]
  have hvalid := char_valid_nat c
  by_cases h9 : c.toNat < 0x10000
  · rw [uEscape, if_pos h9]
    have hx := hex4_digits h9
    have hne : ¬ (0xD800 ≤ c.toNat ∧ c.toNat ≤ 0xDBFF) := by omega
    have hne2 : ¬ (0xDC00 ≤ c.toNat ∧ c.toNat ≤ 0xDFFF) := by omega
    have hres := psb_usingle f _ _ _ _ c.toNat _ cs rest hx hne hne2 ihf
    rw [Char.ofNat_toNat] at hres
    exact hres
  · rw [uEscape, if_neg h9]
    have hmod := Nat.mod_lt (c.toNat - 0x10000) (show 0 < 0x400 by norm_num)
    have hib : 0x10000 ≤ c.toNat ∧ c.toNat < 0x110000 := by omega
    have hx := hex4_digits (show 0xD800 + (c.toNat - 0x10000) / 0x400 < 65536 by omega)
    have hy := hex4_digits (show 0xDC00 + (c.toNat - 0x10000) % 0x400 < 65536 by omega)
    have hres := psb_usurr f _ _ _ _ _ _ _ _ _ _ _ cs rest hx
      ⟨by omega, by omega⟩ hy ⟨by omega, by omega⟩ ihf
    rw [show 0x10000 + ((0xD800 + (c.toNat - 0x10000) / 0x400) - 0xD800) * 0x400 +
        ((0xDC00 + (c.toNat - 0x10000) % 0x400) - 0xDC00) = c.toNat from by omega,
      Char.ofNat_toNat] at hres
    exact hres

theorem parseStringBody_escape (cs : List Char) :
    ∀ (fuel : Nat) (rest : List Char), cs.length < fuel →
      parseStringBody fuel (escapeStr cs ++ '"' :: rest) = some (cs, rest) := by
  induction cs with
  | nil =>
    intro fuel rest hf
    match fuel, hf with
    | f + 1, _ => simp [parseStringBody, escapeStr]
  | cons c cs ih =>
    intro fuel rest hf
    match fuel, hf with
    | f + 1, hf =>
      refine psbe_char c cs f rest (ih f rest ?_)
      simp only [List.length_cons] at hf
      omega

theorem skipWs_cons_ws {c : Char} (h : isWs c = true) (l : List Char) :
    skipWs (c :: l) = skipWs l := by
  simp [skipWs, h]

theorem skipWs_cons_not_ws {c : Char} (h : isWs c = false) (l : List Char) :
    skipWs (c :: l) = c :: l := by
  simp [skipWs, h]

theorem skipWs_indent (n : Nat) (l : List Char) :
    skipWs (indentChars n ++ l) = skipWs l := by
  induction n with
  | zero => rfl
  | succ m ih =>
    rw [indentChars, List.replicate_succ, List.cons_append,
      skipWs_cons_ws (by decide)]
    exact ih

theorem skipWs_idem (l : List Char) : skipWs (skipWs l) = skipWs l := by
  induction l with
  | nil => rfl
  | cons c l ih =>
    by_cases h : isWs c = true
    · rw [skipWs_cons_ws h]
      exact ih
    · have h' : isWs c = false := by simpa using h
      rw [skipWs_cons_not_ws h', skipWs_cons_not_ws h']

theorem parseVal_skipWs (fuel : Nat) (cs : List Char) :
    parseVal fuel (skipWs cs) = parseVal fuel cs := by
  cases fuel with
  | zero => rfl
  | succ f => simp only [parseVal, skipWs_idem]

theorem parseElems_skipWs (fuel : Nat) (cs : List Char) :
    parseElems fuel (skipWs cs) = parseElems fuel cs := by
  cases fuel with
  | zero => rfl
  | succ f => simp only [parseElems, parseVal_skipWs]

theorem digitChar_isDigit {d : Nat} (h : d < 10) : isDigitCh (Nat.digitChar d) = true := by
  interval_cases d <;> rfl

theorem digitChar_toNat {d : Nat} (h : d < 10) : (Nat.digitChar d).toNat = d + 48 := by
  interval_cases d <;> rfl

theorem natChars_digits (n : Nat) : ∀ c ∈ natChars n, isDigitCh c = true := by
  intro c hc
  unfold natChars at hc
  by_cases h : n = 0
  · rw [if_pos h] at hc
    simp only [List.mem_singleton] at hc
    subst hc
    rfl
  · rw [if_neg h] at hc
    rw [List.mem_reverse] at hc
    obtain ⟨d, hd, rfl⟩ := List.mem_map.mp hc
    exact digitChar_isDigit (Nat.digits_lt_base (by norm_num) hd)

theorem natChars_ne_nil (n : Nat) : natChars n ≠ [] := by
  unfold natChars
  by_cases h : n = 0
  · rw [if_pos h]
    simp
  · rw [if_neg h]
    intro hc
    have h1 := List.reverse_eq_nil_iff.mp hc
    have h2 := List.map_eq_nil_iff.mp h1
    exact Nat.digits_ne_nil_iff_ne_zero.mpr h h2

theorem leadZero_natChars (n : Nat) : leadZero (natChars n) = false := by
  by_cases h : n = 0
  · subst h
    rfl
  · have hnil : Nat.digits 10 n ≠ [] := Nat.digits_ne_nil_iff_ne_zero.mpr h
    unfold natChars
    rw [if_neg h]
    cases hrev : ((Nat.digits 10 n).map Nat.digitChar).reverse with
    | nil =>
      exfalso
      apply hnil
      have hb := congrArg List.reverse hrev
      rw [List.reverse_reverse] at hb
      simpa using hb
    | cons c t =>
      have hhead : ((Nat.digits 10 n).map Nat.digitChar).reverse.head? = some c := by
        rw [hrev]
        rfl
      rw [List.head?_reverse, List.getLast?_map] at hhead
      obtain ⟨d, hd, hdc⟩ := Option.map_eq_some'.mp hhead
      have hdl : d = (Nat.digits 10 n).getLast hnil := by
        have hgl := List.getLast?_eq_getLast (Nat.digits 10 n) hnil
        rw [hgl] at hd
        exact (Option.some_inj.mp hd).symm
      have hdmem : d ∈ Nat.digits 10 n := by
        rw [hdl]
        exact List.getLast_mem hnil
      have hd10 : d < 10 := Nat.digits_lt_base (by norm_num) hdmem
      have hdne : d ≠ 0 := by
        rw [hdl]
        exact Nat.getLast_digit_ne_zero 10 h
      have hcne : (c == '0') = false := by
        rw [← hdc]
        interval_cases d
        · exact absurd rfl hdne
        all_goals rfl
      cases t with
      | nil => rfl
      | cons c2 t2 => simp [leadZero, hcne]

theorem takeDigits_append {ds rest : List Char}
    (hds : ∀ c ∈ ds, isDigitCh c = true)
    (hrest : ∀ c, rest.head? = some c → isDigitCh c = false) :
    takeDigits (ds ++ rest) = (ds, rest) := by
  induction ds with
  | nil =>
    cases rest with
    | nil => rfl
    | cons c t =>
      have hc := hrest c rfl
      simp [takeDigits, hc]
  | cons c ds ih =>
    have h1 := hds c (by simp)
    have h2 := ih (fun c' hc' => hds c' (by simp [hc']))
    simp [takeDigits, h1, h2]

theorem foldl_digitChars (L : List Nat) (hL : ∀ d ∈ L, d < 10) (a : Nat) :
    List.foldl (fun x c => x * 10 + (c.toNat - 48)) a ((L.map Nat.digitChar).reverse) =
      a * 10 ^ L.length + Nat.ofDigits 10 L := by
  induction L generalizing a with
  | nil => simp
  | cons d L ih =>
    rw [List.map_cons, List.reverse_cons, List.foldl_append]
    simp only [List.foldl_cons, List.foldl_nil]
    rw [ih (fun e he => hL e (by simp [he])) a,
      digitChar_toNat (hL d (by simp)), Nat.add_sub_cancel, Nat.ofDigits_cons,
      List.length_cons, pow_succ]
    ring

theorem digitsVal_natChars (n : Nat) : digitsVal (natChars n) = n := by
  unfold digitsVal natChars
  by_cases h : n = 0
  · rw [if_pos h, h]
    rfl
  · rw [if_neg h,
      foldl_digitChars _ (fun d hd => Nat.digits_lt_base (by norm_num) hd) 0]
    simp [Nat.ofDigits_digits]

theorem floatNext_of_numDelim {rest : List Char} (h : numDelim rest) :
    floatNext rest = false := by
  cases rest with
  | nil => rfl
  | cons c t =>
    obtain ⟨_, h2, h3, h4⟩ := h
    simp [floatNext, h2, h3, h4]

theorem numDelim_head {rest : List Char} (h : numDelim rest) :
    ∀ c, rest.head? = some c → isDigitCh c = false := by
  intro c hc
  cases rest with
  | nil => simp at hc
  | cons c' t =>
    obtain ⟨h1, _, _, _⟩ := h
    simp only [List.head?_cons, Option.some_inj] at hc
    rw [hc] at h1
    exact h1

theorem parseNumAfter_natChars (neg : Bool) (n : Nat) (rest : List Char)
    (h : numDelim rest) :
    parseNumAfter neg (natChars n ++ rest) =
      some (.num (if neg then -(n : Int) else (n : Int)), rest) := by
  unfold parseNumAfter
  rw [takeDigits_append (natChars_digits n) (numDelim_head h)]
  simp [natChars_ne_nil n, leadZero_natChars n, floatNext_of_numDelim h,
    digitsVal_natChars n]

theorem digit_ne {c : Char} (h : isDigitCh c = true) {c' : Char}
    (h' : c'.toNat < 48 ∨ 57 < c'.toNat) : c ≠ c' := by
  intro hEq
  subst hEq
  have hb : 48 ≤ c.toNat ∧ c.toNat ≤ 57 := by simpa [isDigitCh] using h
  omega

theorem digit_not_ws {c : Char} (h : isDigitCh c = true) : isWs c = false := by
  have h1 : c ≠ ' ' := digit_ne h (by decide)
  have h2 : c ≠ '\t' := digit_ne h (by decide)
  have h3 : c ≠ '\n' := digit_ne h (by decide)
  have h4 : c ≠ '\r' := digit_ne h (by decide)
  simp [isWs, h1, h2, h3, h4]

theorem printVal_head (lvl : Nat) (v : Json) :
    ∃ c t, printVal lvl v = c :: t ∧ isWs c = false ∧ c ≠ ']' ∧ c ≠ '}' := by
  cases v with
  | str s =>
    exact ⟨'"', escapeStr s.data ++ ['"'], by simp [printVal, quoteStr],
      by decide, by decide, by decide⟩
  | num n =>
    cases n with
    | ofNat m =>
      obtain ⟨c, t, hct⟩ : ∃ c t, natChars m = c :: t := by
        cases hn : natChars m with
        | nil => exact absurd hn (natChars_ne_nil m)
        | cons c t => exact ⟨c, t, rfl⟩
      have hd : isDigitCh c = true := natChars_digits m c (by rw [hct]; simp)
      exact ⟨c, t, by simp [printVal, intChars, hct], digit_not_ws hd,
        digit_ne hd (by decide), digit_ne hd (by decide)⟩
    | negSucc m =>
      exact ⟨'-', natChars (m + 1), by simp [printVal, intChars],
        by decide, by decide, by decide⟩
  | bool b =>
    cases b with
    | true => exact ⟨'t', ['r', 'u', 'e'], by simp [printVal], by decide, by decide, by decide⟩
    | false => exact ⟨'f', ['a', 'l', 's', 'e'], by simp [printVal], by decide, by decide, by decide⟩
  | null => exact ⟨'n', ['u', 'l', 'l'], by simp [printVal], by decide, by decide, by decide⟩
  | arr es =>
    cases es with
    | nil => exact ⟨'[', [']'], by simp [printVal], by decide, by decide, by decide⟩
    | cons x tl =>
      exact ⟨'[', '\n' :: printElems lvl (.cons x tl) ++ '\n' :: indentChars (2 * lvl) ++ [']'],
        by simp [printVal], by decide, by decide, by decide⟩
  | obj ms =>
    cases ms with
    | nil => exact ⟨'{', ['}'], by simp [printVal], by decide, by decide, by decide⟩
    | cons k v tl =>
      exact ⟨'{', '\n' :: printMembers lvl (.cons k v tl) ++ '\n' :: indentChars (2 * lvl) ++ ['}'],
        by simp [printVal], by decide, by decide, by decide⟩

theorem needV_pos (v : Json) : 1 ≤ needV v := by
  cases v with
  | str s => simp [needV]
  | num n => simp [needV]
  | bool b => simp [needV]
  | null => simp [needV]
  | arr es => cases es <;> simp [needV]
  | obj ms => cases ms <;> simp [needV]

theorem needE_pos (es : JsonArr) : 1 ≤ needE es := by
  cases es <;> simp [needE] <;> omega

theorem needM_pos (ms : JsonObj) : 1 ≤ needM ms := by
  cases ms <;> simp [needM] <;> omega

theorem pv_null (f : Nat) (rest : List Char) :
    parseVal (f + 1) ('n' :: 'u' :: 'l' :: 'l' :: rest) = some (.null, rest) := rfl

theorem pv_true (f : Nat) (rest : List Char) :
    parseVal (f + 1) ('t' :: 'r' :: 'u' :: 'e' :: rest) = some (.bool true, rest) := rfl

theorem pv_false (f : Nat) (rest : List Char) :
    parseVal (f + 1) ('f' :: 'a' :: 'l' :: 's' :: 'e' :: rest) = some (.bool false, rest) := rfl

theorem pv_minus (f : Nat) (cs : List Char) :
    parseVal (f + 1) ('-' :: cs) = parseNumAfter true cs := rfl

theorem pv_quote (f : Nat) (cs : List Char) :
    parseVal (f + 1) ('"' :: cs) =
      match parseStringBody (cs.length + 1) cs with
      | some (out, rest) => some (.str ⟨out⟩, rest)
      | none => none := rfl

theorem pv_lbrack (f : Nat) (cs : List Char) :
    parseVal (f + 1) ('[' :: cs) =
      match skipWs cs with
      | ']' :: cs2 => some (.arr .nil, cs2)
      | cs2 =>
        match parseElems f cs2 with
        | some (es, r) => some (.arr es, r)
        | none => none := rfl

theorem pv_lbrace (f : Nat) (cs : List Char) :
    parseVal (f + 1) ('{' :: cs) =
      match skipWs cs with
      | '}' :: cs2 => some (.obj .nil, cs2)
      | cs2 =>
        match parseMembers f cs2 with
        | some (ms, r) => some (.obj ms, r)
        | none => none := rfl

theorem pv_digit (f : Nat) {c : Char} (h : isDigitCh c = true) (cs : List Char) :
    parseVal (f + 1) (c :: cs) = parseNumAfter false (c :: cs) := by
  have hws := digit_not_ws h
  have h1 : ¬ c = '{' := digit_ne h (by decide)
  have h2 : ¬ c = '[' := digit_ne h (by decide)
  have h3 : ¬ c = '"' := digit_ne h (by decide)
  have h4 : ¬ c = 't' := digit_ne h (by decide)
  have h5 : ¬ c = 'f' := digit_ne h (by decide)
  have h6 : ¬ c = 'n' := digit_ne h (by decide)
  have h7 : ¬ c = '-' := digit_ne h (by decide)
  simp only [parseVal, skipWs_cons_not_ws hws, if_neg h1, if_neg h2, if_neg h3,
    if_neg h4, if_neg h5, if_neg h6, if_neg h7, if_pos h]

theorem le_escapeStr_length (cs : List Char) : cs.length ≤ (escapeStr cs).length := by
  induction cs with
  | nil => simp [escapeStr]
  | cons c cs ih =>
    have h1 : 1 ≤ (escapeChar c).length := by
      unfold escapeChar uEscape uEscape16
      split_ifs <;> simp
    have h2 : escapeStr (c :: cs) = escapeChar c ++ escapeStr cs := rfl
    rw [h2, List.length_append, List.length_cons]
    omega

theorem printElems_cons (lvl : Nat) (x : Json) (tl : JsonArr) :
    printElems lvl (.cons x tl) =
      indentChars (2 * (lvl + 1)) ++ printVal (lvl + 1) x ++
        (match tl with | .nil => [] | .cons _ _ => [',', '\n']) ++ printElems lvl tl := by
  simp [printElems]

theorem printMembers_cons (lvl : Nat) (k : String) (v : Json) (tl : JsonObj) :
    printMembers lvl (.cons k v tl) =
      indentChars (2 * (lvl + 1)) ++ quoteStr k ++ ':' :: ' ' :: printVal (lvl + 1) v ++
        (match tl with | .nil => [] | .cons _ _ _ => [',', '\n']) ++ printMembers lvl tl := by
  simp [printMembers]

theorem skipWs_printElems (lvl : Nat) (x : Json) (tl : JsonArr) (Y : List Char) :
    skipWs (printElems lvl (.cons x tl) ++ Y) =
      printVal (lvl + 1) x ++
        ((match tl with | .nil => [] | .cons _ _ => [',', '\n']) ++ (printElems lvl tl ++ Y)) := by
  rw [printElems_cons]
  simp only [List.append_assoc]
  rw [skipWs_indent]
  obtain ⟨c, t, hct, hws, _, _⟩ := printVal_head (lvl + 1) x
  rw [hct, List.cons_append, skipWs_cons_not_ws hws, ← List.cons_append, ← hct]

theorem skipWs_printMembers (lvl : Nat) (k : String) (v : Json) (tl : JsonObj) (Y : List Char) :
    skipWs (printMembers lvl (.cons k v tl) ++ Y) =
      '"' :: (escapeStr k.data ++ ('"' :: (':' :: ' ' ::
        (printVal (lvl + 1) v ++
          ((match tl with | .nil => [] | .cons _ _ _ => [',', '\n']) ++
            (printMembers lvl tl ++ Y)))))) := by
  rw [printMembers_cons]
  simp only [List.append_assoc]
  rw [skipWs_indent]
  rw [show quoteStr k = '"' :: (escapeStr k.data ++ ['"']) from rfl]
  rw [List.cons_append, skipWs_cons_not_ws (by decide)]
  simp only [List.append_assoc, List.cons_append, List.nil_append]

theorem pe_step (f : Nat) (cs : List Char) :
    parseElems (f + 1) cs =
      match parseVal f cs with
      | none => none
      | some (v, cs2) =>
        match skipWs cs2 with
        | ']' :: cs3 => some (.cons v .nil, cs3)
        | ',' :: cs3 =>
          match parseElems f cs3 with
          | none => none
          | some (es, r) => some (.cons v es, r)
        | _ => none := rfl

theorem pm_step (f : Nat) (cs : List Char) :
    parseMembers (f + 1) ('"' :: cs) =
      match parseStringBody (cs.length + 1) cs with
      | none => none
      | some (k, cs2) =>
        match skipWs cs2 with
        | ':' :: cs3 =>
          match parseVal f cs3 with
          | none => none
          | some (v, cs4) =>
            match skipWs cs4 with
            | '}' :: cs5 => some (.cons ⟨k⟩ v .nil, cs5)
            | ',' :: cs5 =>
              match parseMembers f (skipWs cs5) with
              | none => none
              | some (ms, r) => some (.cons ⟨k⟩ v ms, r)
            | _ => none
        | _ => none := rfl

theorem printElems_nil (lvl : Nat) : printElems lvl .nil = [] := by
  simp [printElems]

theorem printMembers_nil (lvl : Nat) : printMembers lvl .nil = [] := by
  simp [printMembers]

theorem numDelim_newline (l : List Char) : numDelim ('\n' :: l) :=
  ⟨by decide, by decide, by decide, by decide⟩

theorem numDelim_comma (l : List Char) : numDelim (',' :: l) :=
  ⟨by decide, by decide, by decide, by decide⟩

theorem parse_print_all (fuel : Nat) :
    (∀ (v : Json) (lvl : Nat) (rest : List Char), needV v ≤ fuel → numDelim rest →
      parseVal fuel (printVal lvl v ++ rest) = some (v, rest)) ∧
    (∀ (x : Json) (tl : JsonArr) (lvl : Nat) (rest : List Char),
      needE (.cons x tl) ≤ fuel →
      parseElems fuel
          (printElems lvl (.cons x tl) ++ ('\n' :: (indentChars (2 * lvl) ++ (']' :: rest)))) =
        some (.cons x tl, rest)) ∧
    (∀ (k : String) (v : Json) (tl : JsonObj) (lvl : Nat) (rest : List Char),
      needM (.cons k v tl) ≤ fuel →
      parseMembers fuel
          (skipWs (printMembers lvl (.cons k v tl) ++
            ('\n' :: (indentChars (2 * lvl) ++ ('}' :: rest))))) =
        some (.cons k v tl, rest)) := by
  induction fuel with
  | zero =>
    refine ⟨?_, ?_, ?_⟩
    · intro v lvl rest hfuel _
      have := needV_pos v
      omega
    · intro x tl lvl rest hfuel
      have := needE_pos (.cons x tl)
      omega
    · intro k v tl lvl rest hfuel
      have := needM_pos (.cons k v tl)
      omega
  | succ f ih =>
    obtain ⟨ihV, ihE, ihM⟩ := ih
    refine ⟨?_, ?_, ?_⟩
    · -- values
      intro v lvl rest hfuel hrest
      cases v with
      | null =>
        rw [show printVal lvl .null = ['n', 'u', 'l', 'l'] from by simp [printVal]]
        exact pv_null f rest
      | bool b =>
        cases b with
        | true =>
          rw [show printVal lvl (.bool true) = ['t', 'r', 'u', 'e'] from by simp [printVal]]
          exact pv_true f rest
        | false =>
          rw [show printVal lvl (.bool false) = ['f', 'a', 'l', 's', 'e'] from by
            simp [printVal]]
          exact pv_false f rest
      | str s =>
        rw [show printVal lvl (.str s) = '"' :: (escapeStr s.data ++ ['"']) from by
          simp [printVal, quoteStr]]
        simp only [List.cons_append, List.append_assoc, List.nil_append]
        rw [pv_quote]
        rw [parseStringBody_escape s.data ((escapeStr s.data ++ '"' :: rest).length + 1) rest
          (by rw [List.length_append, List.length_cons]
              have := le_escapeStr_length s.data
              omega)]
      | num n =>
        cases n with
        | ofNat m =>
          rw [show printVal lvl (.num (Int.ofNat m)) = natChars m from by
            simp [printVal, intChars]]
          obtain ⟨c, t, hct⟩ : ∃ c t, natChars m = c :: t := by
            cases hn : natChars m with
            | nil => exact absurd hn (natChars_ne_nil m)
            | cons c t => exact ⟨c, t, rfl⟩
          have hd : isDigitCh c = true := natChars_digits m c (by rw [hct]; simp)
          rw [hct, List.cons_append, pv_digit f hd, ← List.cons_append, ← hct]
          exact parseNumAfter_natChars false m rest hrest
        | negSucc m =>
          rw [show printVal lvl (.num (Int.negSucc m)) = '-' :: natChars (m + 1) from by
            simp [printVal, intChars]]
          rw [List.cons_append, pv_minus]
          rw [parseNumAfter_natChars true (m + 1) rest hrest]
          have heq : (-(((m + 1 : Nat) : Int))) = Int.negSucc m := by
            rw [Int.negSucc_eq]
            push_cast
            ring
          rw [if_pos rfl, heq]
      | arr es =>
        cases es with
        | nil =>
          rw [show printVal lvl (.arr .nil) = ['[', ']'] from by simp [printVal]]
          rfl
        | cons x tl =>
          rw [show printVal lvl (.arr (.cons x tl)) =
              '[' :: '\n' :: printElems lvl (.cons x tl) ++
                '\n' :: indentChars (2 * lvl) ++ [']'] from by simp [printVal]]
          have hfe : needE (.cons x tl) ≤ f := by
            have hv : needV (.arr (.cons x tl)) = 1 + needE (.cons x tl) := by
              simp [needV]
            omega
          simp only [List.cons_append, List.append_assoc, List.nil_append]
          rw [pv_lbrack]
          rw [skipWs_cons_ws (by decide)]
          rw [skipWs_printElems]
          obtain ⟨c, t, hct, hws, hne1, hne2⟩ := printVal_head (lvl + 1) x
          rw [hct, List.cons_append]
          split
          · rename_i cs2 heq
            injection heq with hh _
            exact absurd hh hne1
          · rw [← List.cons_append, ← hct, ← skipWs_printElems lvl x tl, parseElems_skipWs]
            rw [ihE x tl lvl rest hfe]
      | obj ms =>
        cases ms with
        | nil =>
          rw [show printVal lvl (.obj .nil) = ['{', '}'] from by simp [printVal]]
          rfl
        | cons k v tl =>
          rw [show printVal lvl (.obj (.cons k v tl)) =
              '{' :: '\n' :: printMembers lvl (.cons k v tl) ++
                '\n' :: indentChars (2 * lvl) ++ ['}'] from by simp [printVal]]
          have hfm : needM (.cons k v tl) ≤ f := by
            have hv : needV (.obj (.cons k v tl)) = 1 + needM (.cons k v tl) := by
              simp [needV]
            omega
          simp only [List.cons_append, List.append_assoc, List.nil_append]
          rw [pv_lbrace]
          rw [skipWs_cons_ws (by decide)]
          rw [skipWs_printMembers]
          split
          · rename_i cs2 heq
            injection heq with hh _
            exact absurd hh (by decide)
          · rw [← skipWs_printMembers lvl k v tl]
            rw [ihM k v tl lvl rest hfm]
    · -- array elements
      intro x tl lvl rest hfuel
      have hnx : needV x ≤ f := by
        have h1 : needE (.cons x tl) = 1 + needV x + needE tl := by simp [needE]
        have h2 := needE_pos tl
        omega
      rw [pe_step]
      rw [← parseVal_skipWs f, skipWs_printElems]
      cases tl with
      | nil =>
        simp only [printElems_nil, List.nil_append]
        rw [ihV x (lvl + 1) _ hnx (numDelim_newline _)]
        simp only [skipWs_cons_ws (show isWs '\n' = true by decide), skipWs_indent,
          skipWs_cons_not_ws (show isWs ']' = false by decide)]
      | cons y ys =>
        have hfe2 : needE (.cons y ys) ≤ f := by
          have h1 : needE (.cons x (.cons y ys)) = 1 + needV x + needE (.cons y ys) := by
            simp [needE]
          have h2 := needV_pos x
          omega
        simp only [List.cons_append, List.nil_append]
        rw [ihV x (lvl + 1) _ hnx (numDelim_comma _)]
        have hskip : parseElems f ('\n' ::
            (printElems lvl (.cons y ys) ++
              ('\n' :: (indentChars (2 * lvl) ++ (']' :: rest))))) =
            some (JsonArr.cons y ys, rest) := by
          rw [← parseElems_skipWs f ('\n' :: _), skipWs_cons_ws (by decide),
            parseElems_skipWs]
          exact ihE y ys lvl rest hfe2
        simp only [skipWs_cons_not_ws (show isWs ',' = false by decide), hskip]
    · -- object members
      intro k v tl lvl rest hfuel
      have hnv : needV v ≤ f := by
        have h1 : needM (.cons k v tl) = 1 + needV v + needM tl := by simp [needM]
        have h2 := needM_pos tl
        omega
      rw [skipWs_printMembers]
      rw [pm_step]
      rw [parseStringBody_escape k.data _ _
        (by rw [List.length_append, List.length_cons]
            have := le_escapeStr_length k.data
            omega)]
      simp only [skipWs_cons_not_ws (show isWs ':' = false by decide)]
      rw [← parseVal_skipWs f (' ' :: _), skipWs_cons_ws (by decide)]
      obtain ⟨c, t, hct, hws, _, _⟩ := printVal_head (lvl + 1) v
      rw [hct, List.cons_append, skipWs_cons_not_ws hws, ← List.cons_append, ← hct]
      cases tl with
      | nil =>
        simp only [printMembers_nil, List.nil_append]
        rw [ihV v (lvl + 1) _ hnv (numDelim_newline _)]
        simp only [skipWs_cons_ws (show isWs '\n' = true by decide), skipWs_indent,
          skipWs_cons_not_ws (show isWs '}' = false by decide)]
      | cons k2 v2 tl2 =>
        have hfm2 : needM (.cons k2 v2 tl2) ≤ f := by
          have h1 : needM (.cons k v (.cons k2 v2 tl2)) =
              1 + needV v + needM (.cons k2 v2 tl2) := by simp [needM]
          have h2 := needV_pos v
          omega
        simp only [List.cons_append, List.nil_append]
        rw [ihV v (lvl + 1) _ hnv (numDelim_comma _)]
        have hmem : parseMembers f (skipWs ('\n' ::
            (printMembers lvl (.cons k2 v2 tl2) ++
              ('\n' :: (indentChars (2 * lvl) ++ ('}' :: rest)))))) =
            some (JsonObj.cons k2 v2 tl2, rest) := by
          rw [skipWs_cons_ws (by decide)]
          exact ihM k2 v2 tl2 lvl rest hfm2
        simp only [skipWs_cons_not_ws (show isWs ',' = false by decide), hmem]

theorem need_le_length (N : Nat) :
    (∀ v : Json, sizeOf v < N → ∀ lvl, needV v ≤ (printVal lvl v).length) ∧
    (∀ es : JsonArr, sizeOf es < N → ∀ lvl, needE es ≤ (printElems lvl es).length + 1) ∧
    (∀ ms : JsonObj, sizeOf ms < N → ∀ lvl, needM ms ≤ (printMembers lvl ms).length + 1) := by
  induction N using Nat.strong_induction_on with
  | _ N ihN =>
    refine ⟨?_, ?_, ?_⟩
    · intro v hsize lvl
      cases v with
      | str s =>
        simp [needV, printVal, quoteStr, List.length_append]
      | num n =>
        have h1 : (intChars n).length ≠ 0 := by
          cases n with
          | ofNat m =>
            simp only [intChars]
            intro hc
            exact natChars_ne_nil m (List.length_eq_zero.mp hc)
          | negSucc m => simp [intChars]
        simp only [needV, printVal]
        omega
      | bool b => cases b <;> simp [needV, printVal]
      | null => simp [needV, printVal]
      | arr es =>
        cases es with
        | nil => simp [needV, printVal]
        | cons x tl =>
          have hsub : sizeOf (JsonArr.cons x tl) < sizeOf (Json.arr (.cons x tl)) := by
            simp
          have hE := (ihN (sizeOf (Json.arr (JsonArr.cons x tl))) hsize).2.1
            (JsonArr.cons x tl) hsub lvl
          have hv : needV (Json.arr (JsonArr.cons x tl)) = 1 + needE (JsonArr.cons x tl) := by
            simp [needV]
          have hl : (printVal lvl (Json.arr (JsonArr.cons x tl))).length =
              2 + (printElems lvl (JsonArr.cons x tl)).length + 1 + 2 * lvl + 1 := by
            rw [show printVal lvl (.arr (.cons x tl)) =
                '[' :: '\n' :: printElems lvl (.cons x tl) ++
                  '\n' :: indentChars (2 * lvl) ++ [']'] from by simp [printVal]]
            simp [List.length_append, indentChars]
            omega
          omega
      | obj ms =>
        cases ms with
        | nil => simp [needV, printVal]
        | cons k v tl =>
          have hsub : sizeOf (JsonObj.cons k v tl) < sizeOf (Json.obj (.cons k v tl)) := by
            simp
          have hM := (ihN (sizeOf (Json.obj (JsonObj.cons k v tl))) hsize).2.2
            (JsonObj.cons k v tl) hsub lvl
          have hv : needV (Json.obj (JsonObj.cons k v tl)) = 1 + needM (JsonObj.cons k v tl) := by
            simp [needV]
          have hl : (printVal lvl (Json.obj (JsonObj.cons k v tl))).length =
              2 + (printMembers lvl (JsonObj.cons k v tl)).length + 1 + 2 * lvl + 1 := by
            rw [show printVal lvl (.obj (.cons k v tl)) =
                '{' :: '\n' :: printMembers lvl (.cons k v tl) ++
                  '\n' :: indentChars (2 * lvl) ++ ['}'] from by simp [printVal]]
            simp [List.length_append, indentChars]
            omega
          omega
    · intro es hsize lvl
      cases es with
      | nil => simp [needE, printElems]
      | cons x tl =>
        have hV := (ihN (sizeOf (JsonArr.cons x tl)) hsize).1 x
          (by simp; omega) (lvl + 1)
        have hE := (ihN (sizeOf (JsonArr.cons x tl)) hsize).2.1 tl
          (by simp) lvl
        have hn : needE (JsonArr.cons x tl) = 1 + needV x + needE tl := by simp [needE]
        have hl : (printElems lvl (JsonArr.cons x tl)).length =
            2 * (lvl + 1) + (printVal (lvl + 1) x).length +
              (match tl with | .nil => ([] : List Char) | .cons _ _ => [',', '\n']).length +
              (printElems lvl tl).length := by
          rw [printElems_cons]
          simp [List.length_append, indentChars]
          omega
        have hE' : needE tl ≤ (printElems lvl tl).length + 1 := hE
        omega
    · intro ms hsize lvl
      cases ms with
      | nil => simp [needM, printMembers]
      | cons k v tl =>
        have hV := (ihN (sizeOf (JsonObj.cons k v tl)) hsize).1 v
          (by simp; omega) (lvl + 1)
        have hM := (ihN (sizeOf (JsonObj.cons k v tl)) hsize).2.2 tl
          (by simp) lvl
        have hn : needM (JsonObj.cons k v tl) = 1 + needV v + needM tl := by simp [needM]
        have hl : (printMembers lvl (JsonObj.cons k v tl)).length =
            2 * (lvl + 1) + (quoteStr k).length + 2 + (printVal (lvl + 1) v).length +
              (match tl with | .nil => ([] : List Char) | .cons _ _ _ => [',', '\n']).length +
              (printMembers lvl tl).length := by
          rw [printMembers_cons]
          simp [List.length_append, indentChars]
          omega
        omega

/-- Parse-print round trip: `json.loads` applied to the output of
`json.dumps(·, indent=2)` returns the original value. -/
theorem loads_serialize (v : Json) : loads (_serialize_data v) = some v := by
  have hneed : needV v ≤ (printVal 0 v).length + 1 := by
    have h := (need_le_length (sizeOf v + 1)).1 v (by omega) 0
    omega
  have hp := (parse_print_all ((printVal 0 v).length + 1)).1 v 0 [] hneed trivial
  rw [List.append_nil] at hp
  show (match parseVal ((printVal 0 v).length + 1) (printVal 0 v) with
    | some (w, rest) => if skipWs rest = [] then some w else none
    | none => none) = some v
  rw [hp]
  rfl

theorem dbGet_dbSet_self (db : Databag) (k v : String) :
    dbGet (dbSet db k v) k = some v := by
  induction db with
  | nil => simp [dbSet, dbGet]
  | cons p rest ih =>
    obtain ⟨k', v'⟩ := p
    by_cases h : k' = k
    · subst h
      simp [dbSet, dbGet]
    · simp [dbSet, dbGet, h, ih]

theorem dbGet_dbSet_ne (db : Databag) {k k' : String} (v : String) (h : k' ≠ k) :
    dbGet (dbSet db k v) k' = dbGet db k' := by
  have h' : ¬ k = k' := fun hh => h hh.symm
  induction db with
  | nil => simp [dbSet, dbGet, h']
  | cons p rest ih =>
    obtain ⟨k2, v2⟩ := p
    by_cases h2 : k2 = k
    · subst h2
      simp [dbSet, dbGet, h']
    · simp [dbSet, dbGet, h2, ih]

theorem relGet_relSetFirst (l : List (String × List TRRelation)) (ep : String)
    (r : TRRelation) {x : TRRelation} {tl : List TRRelation}
    (h : relGet l ep = some (x :: tl)) :
    relGet (relSetFirst l ep r) ep = some (r :: tl) := by
  induction l with
  | nil => simp [relGet] at h
  | cons p rest ih =>
    obtain ⟨k, rels⟩ := p
    by_cases hk : k = ep
    · subst hk
      simp only [relGet, if_pos rfl, if_true, eq_self_iff_true, Option.some_inj] at h
      subst h
      simp [relSetFirst, relGet]
    · simp only [relGet, if_neg hk] at h
      simp [relSetFirst, relGet, hk, ih h]

theorem relation_eq (req : TraefikRouteRequirer) (s : CharmState) :
    req.relation s =
      match relGet s.modelRelations req.endpoint with
      | some (r :: _) => some r
      | _ => none := rfl

theorem proxied_eq (req : TraefikRouteRequirer) (s : CharmState) :
    req.proxied_endpoint s =
      match req.relation s with
      | none => .error .attributeError
      | some rel =>
        match _deserialize_data (dbGet rel.remoteAppData "traefik_route") with
        | .error e => .error e
        | .ok data =>
          match data with
          | .obj kvs =>
            match (kvs.lookupLast s.unitName).getD (.obj .nil) with
            | .obj kvs2 => .ok ((kvs2.lookupLast "url").getD .null)
            | _ => .error .attributeError
          | _ => .error .attributeError := rfl

theorem relation_setFirst (req : TraefikRouteRequirer) (s : CharmState)
    {rel : TRRelation} (h : req.relation s = some rel) (r : TRRelation) :
    req.relation { s with modelRelations := relSetFirst s.modelRelations req.endpoint r } =
      some r := by
  rw [relation_eq] at h
  rw [relation_eq]
  cases hg : relGet s.modelRelations req.endpoint with
  | none =>
    rw [hg] at h
    simp at h
  | some rels =>
    cases rels with
    | nil =>
      rw [hg] at h
      simp at h
    | cons x tl =>
      rw [relGet_relSetFirst _ _ r hg]

theorem relation_of_relationsOn_nil {req : TraefikRouteRequirer} {s : CharmState}
    (h : relationsOn req s = []) : req.relation s = none := by
  rw [relation_eq]
  unfold relationsOn at h
  cases hg : relGet s.modelRelations req.endpoint with
  | none => rfl
  | some rels =>
    rw [hg] at h
    simp at h
    subst h
    rfl

/-- C1: a publish call (`relay_ingress_request`) by a unit that is not the
leader raises `UnauthorizedError` before touching any databag: the whole charm
state — in particular every relation databag — is returned unchanged. -/
theorem relay_non_leader_unauthorized (req : TraefikRouteRequirer) (s : CharmState)
    (ingress config : Json) (h : s.isLeader = false) :
    req.relay_ingress_request s ingress config = (s, some PyError.unauthorized) := by
  simp [TraefikRouteRequirer.relay_ingress_request, h]

theorem relay_non_leader_unauthorized_witness :
    (CharmState.mk false "prometheus/0"
        [("traefik_route", [TRRelation.mk [("x", "y")] []])]).isLeader = false ∧
    (TraefikRouteRequirer.mk "traefik_route").relay_ingress_request
        (CharmState.mk false "prometheus/0"
          [("traefik_route", [TRRelation.mk [("x", "y")] []])])
        Json.null Json.null =
      (CharmState.mk false "prometheus/0"
        [("traefik_route", [TRRelation.mk [("x", "y")] []])], some PyError.unauthorized) :=
  ⟨rfl, relay_non_leader_unauthorized _ _ Json.null Json.null rfl⟩

/-- C4: one invocation of the provider's handler for the host `ready` event
emits exactly one `request` event, and it carries the same relation identity
as the triggering event. -/
theorem emit_request_event_single (e : ReadyEvent) :
    TraefikRouteProvider._emit_request_event e = [{ relation := e.relation }] := rfl

/-- C5: the `relation` accessor returns `none` when zero relations exist on
the configured endpoint (the endpoint is absent from `model.relations` or its
list is empty), and returns the first relation when at least one exists. -/
theorem relation_accessor_presence (req : TraefikRouteRequirer) (s : CharmState) :
    (relationsOn req s = [] → req.relation s = none) ∧
    (∀ r rest, relationsOn req s = r :: rest → req.relation s = some r) := by
  constructor
  · exact relation_of_relationsOn_nil
  · intro r rest h
    rw [relation_eq]
    unfold relationsOn at h
    cases hg : relGet s.modelRelations req.endpoint with
    | none =>
      rw [hg] at h
      simp at h
    | some rels =>
      rw [hg] at h
      simp at h
      subst h
      rfl

theorem relation_accessor_presence_witness :
    relationsOn (TraefikRouteRequirer.mk "traefik_route")
        (CharmState.mk true "u/0" []) = [] ∧
    (TraefikRouteRequirer.mk "traefik_route").relation (CharmState.mk true "u/0" []) = none ∧
    relationsOn (TraefikRouteRequirer.mk "traefik_route")
        (CharmState.mk true "u/0" [("traefik_route", [TRRelation.mk [] []])]) =
      [TRRelation.mk [] []] ∧
    (TraefikRouteRequirer.mk "traefik_route").relation
        (CharmState.mk true "u/0" [("traefik_route", [TRRelation.mk [] []])]) =
      some (TRRelation.mk [] []) :=
  ⟨rfl, (relation_accessor_presence _ _).1 rfl, rfl,
    (relation_accessor_presence _ _).2 (TRRelation.mk [] []) [] rfl⟩

/-- C6: with two or more relations established on the endpoint, the accessor
returns the first one in the order the framework reports, and the reads and
writes built on it behave as if that first relation were the only one: the
`proxied_endpoint` read and the outcome of a `relay_ingress_request` write
agree with those on the state collapsed to just the first relation. -/
theorem relation_accessor_uses_first (req : TraefikRouteRequirer) (s : CharmState)
    (r : TRRelation) (rest : List TRRelation)
    (h : relGet s.modelRelations req.endpoint = some (r :: rest)) :
    req.relation s = some r ∧
    req.proxied_endpoint s =
      req.proxied_endpoint { s with modelRelations := [(req.endpoint, [r])] } ∧
    ∀ ingress config, (req.relay_ingress_request s ingress config).2 =
      (req.relay_ingress_request { s with modelRelations := [(req.endpoint, [r])] }
        ingress config).2 := by
  have h1 : req.relation s = some r := by rw [relation_eq, h]
  have h2 : req.relation { s with modelRelations := [(req.endpoint, [r])] } = some r := by
    rw [relation_eq]
    simp [relGet]
  refine ⟨h1, ?_, ?_⟩
  · rw [proxied_eq, proxied_eq, h1, h2]
  · intro ingress config
    cases hl : s.isLeader with
    | false => simp [TraefikRouteRequirer.relay_ingress_request, hl]
    | true =>
      rw [hl] at h2
      simp [TraefikRouteRequirer.relay_ingress_request, hl, h1, h2]

theorem relation_accessor_uses_first_witness :
    relGet (CharmState.mk true "u/0"
        [("traefik_route", [TRRelation.mk [] [("traefik_route", "\x7b\x7d")],
          TRRelation.mk [("a", "b")] []])]).modelRelations
        (TraefikRouteRequirer.mk "traefik_route").endpoint =
      some [TRRelation.mk [] [("traefik_route", "\x7b\x7d")], TRRelation.mk [("a", "b")] []] ∧
    (TraefikRouteRequirer.mk "traefik_route").relation
        (CharmState.mk true "u/0"
          [("traefik_route", [TRRelation.mk [] [("traefik_route", "\x7b\x7d")],
            TRRelation.mk [("a", "b")] []])]) =
      some (TRRelation.mk [] [("traefik_route", "\x7b\x7d")]) :=
  ⟨rfl,
    (relation_accessor_uses_first (TraefikRouteRequirer.mk "traefik_route")
      (CharmState.mk true "u/0"
        [("traefik_route", [TRRelation.mk [] [("traefik_route", "\x7b\x7d")],
          TRRelation.mk [("a", "b")] []])])
      (TRRelation.mk [] [("traefik_route", "\x7b\x7d")])
      [TRRelation.mk [("a", "b")] []] rfl).1⟩

/-- C10: with the leader calling but zero relations on the endpoint, the
publish call fails with `AttributeError` (from `None.data`), writes nothing
(the state is returned unchanged), and the error is neither the authorization
error nor the declared not-ready error. -/
theorem relay_without_relation_attribute_error (req : TraefikRouteRequirer)
    (s : CharmState) (ingress config : Json)
    (hlead : s.isLeader = true) (hrel : relationsOn req s = []) :
    req.relay_ingress_request s ingress config = (s, some PyError.attributeError) ∧
    PyError.attributeError ≠ PyError.unauthorized ∧
    PyError.attributeError ≠ PyError.notReady := by
  have h1 := relation_of_relationsOn_nil hrel
  refine ⟨?_, by decide, by decide⟩
  simp [TraefikRouteRequirer.relay_ingress_request, hlead, h1]

theorem relay_without_relation_attribute_error_witness :
    (CharmState.mk true "u/0" []).isLeader = true ∧
    relationsOn (TraefikRouteRequirer.mk "traefik_route") (CharmState.mk true "u/0" []) = [] ∧
    (TraefikRouteRequirer.mk "traefik_route").relay_ingress_request
        (CharmState.mk true "u/0" []) Json.null Json.null =
      (CharmState.mk true "u/0" [], some PyError.attributeError) :=
  ⟨rfl, rfl,
    (relay_without_relation_attribute_error (TraefikRouteRequirer.mk "traefik_route")
      (CharmState.mk true "u/0" []) Json.null Json.null rfl rfl).1⟩

/-- C2 counterexample: a leader publish into a relation whose application
databag already holds a field `"foo"` leaves that field in place, so the
databag does not contain *exactly* the fields `config` and `ingress`
afterwards. -/
theorem relay_keeps_preexisting_field :
    ((TraefikRouteRequirer.mk "traefik_route").relation
        ((TraefikRouteRequirer.mk "traefik_route").relay_ingress_request
          (CharmState.mk true "u/0"
            [("traefik_route", [TRRelation.mk [("foo", "bar")] []])])
          Json.null Json.null).1).map (fun r => r.localAppData.map Prod.fst) =
      some ["foo", "config", "ingress"] ∧
    ("foo" : String) ≠ "config" ∧ ("foo" : String) ≠ "ingress" :=
  ⟨rfl, by decide, by decide⟩

/-- C2 (amended): a leader publish with a relation present succeeds, stores
under `config` and `ingress` the serializations of the two inputs — parsing
the stored values reproduces the inputs — and adds no other field: when the
databag was empty beforehand it holds exactly the two fields `config` and
`ingress`. -/
theorem relay_publishes_config_and_ingress (req : TraefikRouteRequirer)
    (s : CharmState) (ingress config : Json) (rel : TRRelation)
    (hlead : s.isLeader = true) (hrel : req.relation s = some rel) :
    (req.relay_ingress_request s ingress config).2 = none ∧
    ∃ rel', req.relation (req.relay_ingress_request s ingress config).1 = some rel' ∧
      rel'.localAppData =
        dbSet (dbSet rel.localAppData "config" (_serialize_data config)) "ingress"
          (_serialize_data ingress) ∧
      (dbGet rel'.localAppData "config").bind loads = some config ∧
      (dbGet rel'.localAppData "ingress").bind loads = some ingress ∧
      (rel.localAppData = [] → rel'.localAppData.map Prod.fst = ["config", "ingress"]) ∧
      rel'.remoteAppData = rel.remoteAppData := by
  have hres : req.relay_ingress_request s ingress config =
      ({ s with
          modelRelations :=
            relSetFirst s.modelRelations req.endpoint
              { rel with
                  localAppData :=
                    dbSet (dbSet rel.localAppData "config" (_serialize_data config))
                      "ingress" (_serialize_data ingress) } },
        none) := by
    simp [TraefikRouteRequirer.relay_ingress_request, hlead, hrel]
  refine ⟨by rw [hres], ?_⟩
  refine ⟨{ rel with
      localAppData :=
        dbSet (dbSet rel.localAppData "config" (_serialize_data config))
          "ingress" (_serialize_data ingress) }, ?_, rfl, ?_, ?_, ?_, rfl⟩
  · rw [hres]
    exact relation_setFirst req s hrel _
  · rw [dbGet_dbSet_ne _ _ (by decide), dbGet_dbSet_self]
    simp [loads_serialize]
  · rw [dbGet_dbSet_self]
    simp [loads_serialize]
  · intro hempty
    rw [hempty]
    rfl

theorem relay_publishes_config_and_ingress_witness :
    (CharmState.mk true "u/0" [("traefik_route", [TRRelation.mk [] []])]).isLeader = true ∧
    (TraefikRouteRequirer.mk "traefik_route").relation
        (CharmState.mk true "u/0" [("traefik_route", [TRRelation.mk [] []])]) =
      some (TRRelation.mk [] []) ∧
    (((TraefikRouteRequirer.mk "traefik_route").relay_ingress_request
        (CharmState.mk true "u/0" [("traefik_route", [TRRelation.mk [] []])])
        (Json.obj (.cons "model" (.str "cos") (.cons "unit" (.str "remote/0") .nil)))
        (Json.obj (.cons "rule" (.str "Host(`foo.bar`)") .nil))).2 = none ∧
      ∃ rel', (TraefikRouteRequirer.mk "traefik_route").relation
          ((TraefikRouteRequirer.mk "traefik_route").relay_ingress_request
            (CharmState.mk true "u/0" [("traefik_route", [TRRelation.mk [] []])])
            (Json.obj (.cons "model" (.str "cos") (.cons "unit" (.str "remote/0") .nil)))
            (Json.obj (.cons "rule" (.str "Host(`foo.bar`)") .nil))).1 = some rel' ∧
        rel'.localAppData =
          dbSet (dbSet (TRRelation.mk [] []).localAppData "config"
            (_serialize_data (Json.obj (.cons "rule" (.str "Host(`foo.bar`)") .nil))))
            "ingress"
            (_serialize_data
              (Json.obj (.cons "model" (.str "cos") (.cons "unit" (.str "remote/0") .nil)))) ∧
        (dbGet rel'.localAppData "config").bind loads =
          some (Json.obj (.cons "rule" (.str "Host(`foo.bar`)") .nil)) ∧
        (dbGet rel'.localAppData "ingress").bind loads =
          some (Json.obj (.cons "model" (.str "cos") (.cons "unit" (.str "remote/0") .nil))) ∧
        ((TRRelation.mk [] []).localAppData = [] →
          rel'.localAppData.map Prod.fst = ["config", "ingress"]) ∧
        rel'.remoteAppData = (TRRelation.mk [] []).remoteAppData) :=
  ⟨rfl, rfl,
    relay_publishes_config_and_ingress (TraefikRouteRequirer.mk "traefik_route")
      (CharmState.mk true "u/0" [("traefik_route", [TRRelation.mk [] []])])
      (Json.obj (.cons "model" (.str "cos") (.cons "unit" (.str "remote/0") .nil)))
      (Json.obj (.cons "rule" (.str "Host(`foo.bar`)") .nil))
      (TRRelation.mk [] []) rfl rfl⟩

/-- C8: a leader publish writes only the keys `config` and `ingress`: any
other key of the relation's application databag maps to the same value after
the call as before it. -/
theorem relay_frame_other_keys (req : TraefikRouteRequirer) (s : CharmState)
    (ingress config : Json) (rel : TRRelation) (k : String)
    (hlead : s.isLeader = true) (hrel : req.relation s = some rel)
    (hk1 : k ≠ "config") (hk2 : k ≠ "ingress") :
    ∃ rel', req.relation (req.relay_ingress_request s ingress config).1 = some rel' ∧
      dbGet rel'.localAppData k = dbGet rel.localAppData k ∧
      rel'.remoteAppData = rel.remoteAppData := by
  have hres : req.relay_ingress_request s ingress config =
      ({ s with
          modelRelations :=
            relSetFirst s.modelRelations req.endpoint
              { rel with
                  localAppData :=
                    dbSet (dbSet rel.localAppData "config" (_serialize_data config))
                      "ingress" (_serialize_data ingress) } },
        none) := by
    simp [TraefikRouteRequirer.relay_ingress_request, hlead, hrel]
  refine ⟨{ rel with
      localAppData :=
        dbSet (dbSet rel.localAppData "config" (_serialize_data config))
          "ingress" (_serialize_data ingress) }, ?_, ?_, rfl⟩
  · rw [hres]
    exact relation_setFirst req s hrel _
  · rw [dbGet_dbSet_ne _ _ hk2, dbGet_dbSet_ne _ _ hk1]

theorem relay_frame_other_keys_witness :
    (CharmState.mk true "u/0"
        [("traefik_route", [TRRelation.mk [("foo", "bar")] []])]).isLeader = true ∧
    (TraefikRouteRequirer.mk "traefik_route").relation
        (CharmState.mk true "u/0" [("traefik_route", [TRRelation.mk [("foo", "bar")] []])]) =
      some (TRRelation.mk [("foo", "bar")] []) ∧
    ("foo" : String) ≠ "config" ∧ ("foo" : String) ≠ "ingress" ∧
    ∃ rel', (TraefikRouteRequirer.mk "traefik_route").relation
        ((TraefikRouteRequirer.mk "traefik_route").relay_ingress_request
          (CharmState.mk true "u/0" [("traefik_route", [TRRelation.mk [("foo", "bar")] []])])
          Json.null Json.null).1 = some rel' ∧
      dbGet rel'.localAppData "foo" = dbGet (TRRelation.mk [("foo", "bar")] []).localAppData "foo" ∧
      rel'.remoteAppData = (TRRelation.mk [("foo", "bar")] []).remoteAppData :=
  ⟨rfl, rfl, by decide, by decide,
    relay_frame_other_keys (TraefikRouteRequirer.mk "traefik_route")
      (CharmState.mk true "u/0" [("traefik_route", [TRRelation.mk [("foo", "bar")] []])])
      Json.null Json.null (TRRelation.mk [("foo", "bar")] []) "foo"
      rfl rfl (by decide) (by decide)⟩

/-- C3: if the peer application's `traefik_route` field holds the
serialization of `{u: {"url": x}}` and the charm runs as unit `u`, then
`proxied_endpoint` returns `x`. -/
theorem proxied_endpoint_url_roundtrip (req : TraefikRouteRequirer) (s : CharmState)
    (rel : TRRelation) (u x : String)
    (hrel : req.relation s = some rel)
    (hunit : s.unitName = u)
    (hdata : dbGet rel.remoteAppData "traefik_route" =
      some (_serialize_data (.obj (.cons u (.obj (.cons "url" (.str x) .nil)) .nil)))) :
    req.proxied_endpoint s = .ok (.str x) := by
  rw [proxied_eq, hrel]
  simp [_deserialize_data, hdata, loads_serialize, JsonObj.lookupLast, hunit]

theorem proxied_endpoint_url_roundtrip_witness :
    (TraefikRouteRequirer.mk "traefik_route").relation
        (CharmState.mk false "prometheus/0"
          [("traefik_route",
            [TRRelation.mk []
              [("traefik_route",
                _serialize_data (.obj (.cons "prometheus/0"
                  (.obj (.cons "url" (.str "http://foo.bar/model-prometheus-0") .nil))
                  .nil)))]])]) =
      some (TRRelation.mk []
        [("traefik_route",
          _serialize_data (.obj (.cons "prometheus/0"
            (.obj (.cons "url" (.str "http://foo.bar/model-prometheus-0") .nil)) .nil)))]) ∧
    (TraefikRouteRequirer.mk "traefik_route").proxied_endpoint
        (CharmState.mk false "prometheus/0"
          [("traefik_route",
            [TRRelation.mk []
              [("traefik_route",
                _serialize_data (.obj (.cons "prometheus/0"
                  (.obj (.cons "url" (.str "http://foo.bar/model-prometheus-0") .nil))
                  .nil)))]])]) =
      .ok (.str "http://foo.bar/model-prometheus-0") :=
  ⟨rfl,
    proxied_endpoint_url_roundtrip (TraefikRouteRequirer.mk "traefik_route")
      (CharmState.mk false "prometheus/0"
        [("traefik_route",
          [TRRelation.mk []
            [("traefik_route",
              _serialize_data (.obj (.cons "prometheus/0"
                (.obj (.cons "url" (.str "http://foo.bar/model-prometheus-0") .nil))
                .nil)))]])])
      (TRRelation.mk []
        [("traefik_route",
          _serialize_data (.obj (.cons "prometheus/0"
            (.obj (.cons "url" (.str "http://foo.bar/model-prometheus-0") .nil)) .nil)))])
      "prometheus/0" "http://foo.bar/model-prometheus-0" rfl rfl rfl⟩

/-- C9: with valid JSON in the inbound field that parses to a mapping, a
calling unit whose name is absent from the mapping — or present with a
mapping value lacking a `url` key — makes `proxied_endpoint` return Python
`None` (modelled as `Json.null`) rather than raise. -/
theorem proxied_endpoint_missing_url_none (req : TraefikRouteRequirer) (s : CharmState)
    (rel : TRRelation) (raw : String) (kvs : JsonObj)
    (hrel : req.relation s = some rel)
    (hdata : dbGet rel.remoteAppData "traefik_route" = some raw)
    (hloads : loads raw = some (.obj kvs))
    (hmiss : kvs.lookupLast s.unitName = none ∨
      ∃ kvs2, kvs.lookupLast s.unitName = some (.obj kvs2) ∧
        kvs2.lookupLast "url" = none) :
    req.proxied_endpoint s = .ok .null := by
  rw [proxied_eq, hrel]
  rcases hmiss with hnone | ⟨kvs2, hsome, hurl⟩
  · simp [_deserialize_data, hdata, hloads, hnone, JsonObj.lookupLast]
  · simp [_deserialize_data, hdata, hloads, hsome, hurl]

theorem proxied_endpoint_missing_url_none_witness :
    (TraefikRouteRequirer.mk "traefik_route").relation
        (CharmState.mk false "u/0"
          [("traefik_route", [TRRelation.mk [] [("traefik_route", "\x7b\x7d")]])]) =
      some (TRRelation.mk [] [("traefik_route", "\x7b\x7d")]) ∧
    loads "\x7b\x7d" = some (.obj .nil) ∧
    (TraefikRouteRequirer.mk "traefik_route").proxied_endpoint
        (CharmState.mk false "u/0"
          [("traefik_route", [TRRelation.mk [] [("traefik_route", "\x7b\x7d")]])]) =
      .ok .null :=
  ⟨rfl, rfl,
    proxied_endpoint_missing_url_none (TraefikRouteRequirer.mk "traefik_route")
      (CharmState.mk false "u/0"
        [("traefik_route", [TRRelation.mk [] [("traefik_route", "\x7b\x7d")]])])
      (TRRelation.mk [] [("traefik_route", "\x7b\x7d")]) "\x7b\x7d" .nil
      rfl rfl rfl (Or.inl rfl)⟩

/-- C7: serialization emits multi-line two-space-indented JSON text (the
printed form of a nonempty object starts with a brace, a newline and the
two-space indent); deserialization is plain JSON parsing with no schema
check, so a missing inbound `traefik_route` field surfaces as the
deserializer's `TypeError` and malformed JSON as a `JSONDecodeError`, both at
read time in `proxied_endpoint`; a leader publish with a relation present
never fails at write time. -/
theorem serialization_format_and_read_time_errors (req : TraefikRouteRequirer)
    (s : CharmState) (rel : TRRelation) (raw : String) (k : String) (v : Json)
    (tl : JsonObj) (ingress config : Json) :
    (_serialize_data (.obj (.cons k v tl))).data.take 4 = ['{', '\n', ' ', ' '] ∧
    (req.relation s = some rel → dbGet rel.remoteAppData "traefik_route" = none →
      req.proxied_endpoint s = .error .typeError) ∧
    (req.relation s = some rel → dbGet rel.remoteAppData "traefik_route" = some raw →
      loads raw = none → req.proxied_endpoint s = .error .jsonDecodeError) ∧
    (s.isLeader = true → req.relation s = some rel →
      (req.relay_ingress_request s ingress config).2 = none) := by
  refine ⟨?_, ?_, ?_, ?_⟩
  · rw [show (_serialize_data (.obj (.cons k v tl))).data =
        '{' :: '\n' :: printMembers 0 (.cons k v tl) ++
          '\n' :: indentChars (2 * 0) ++ ['}'] from by simp [_serialize_data, printVal]]
    rw [printMembers_cons]
    simp [indentChars, List.replicate, List.take]
  · intro h1 h2
    rw [proxied_eq, h1]
    simp [_deserialize_data, h2]
  · intro h1 h2 h3
    rw [proxied_eq, h1]
    simp [_deserialize_data, h2, h3]
  · intro hl h1
    simp [TraefikRouteRequirer.relay_ingress_request, hl, h1]

theorem serialization_format_and_read_time_errors_witness :
    (_serialize_data (.obj (.cons "rule" (.str "Host") .nil))).data.take 4 =
      ['{', '\n', ' ', ' '] ∧
    (TraefikRouteRequirer.mk "traefik_route").proxied_endpoint
        (CharmState.mk false "u/0" [("traefik_route", [TRRelation.mk [] []])]) =
      .error .typeError ∧
    (TraefikRouteRequirer.mk "traefik_route").proxied_endpoint
        (CharmState.mk false "u/0"
          [("traefik_route", [TRRelation.mk [] [("traefik_route", "not json")]])]) =
      .error .jsonDecodeError ∧
    ((TraefikRouteRequirer.mk "traefik_route").relay_ingress_request
        (CharmState.mk true "u/0" [("traefik_route", [TRRelation.mk [] []])])
        Json.null Json.null).2 = none :=
  ⟨(serialization_format_and_read_time_errors (TraefikRouteRequirer.mk "traefik_route")
      (CharmState.mk false "u/0" []) (TRRelation.mk [] []) "" "rule" (.str "Host") .nil
      Json.null Json.null).1,
    (serialization_format_and_read_time_errors (TraefikRouteRequirer.mk "traefik_route")
      (CharmState.mk false "u/0" [("traefik_route", [TRRelation.mk [] []])])
      (TRRelation.mk [] []) "" "rule" (.str "Host") .nil Json.null Json.null).2.1 rfl rfl,
    (serialization_format_and_read_time_errors (TraefikRouteRequirer.mk "traefik_route")
      (CharmState.mk false "u/0"
        [("traefik_route", [TRRelation.mk [] [("traefik_route", "not json")]])])
      (TRRelation.mk [] [("traefik_route", "not json")]) "not json" "rule" (.str "Host")
      .nil Json.null Json.null).2.2.1 rfl rfl rfl,
    (serialization_format_and_read_time_errors (TraefikRouteRequirer.mk "traefik_route")
      (CharmState.mk true "u/0" [("traefik_route", [TRRelation.mk [] []])])
      (TRRelation.mk [] []) "" "rule" (.str "Host") .nil Json.null Json.null).2.2.2
      rfl rfl⟩
